import Mathlib

/-!
# Verification of the `rlog` structured-logging / trace-correlation core

Shallow embedding of `runtime/rlog/rlog.go`: field-pair normalization,
the reserved-key guard, the typed field encoder (structured sink and
trace buffer), the immutable context chain (`Ctx`), and the per-call
log pipeline (`doLog`).

Go strings are modelled as Lean `String`; Go `[]any` field lists as
`List Val` where `Val` enumerates the runtime types the encoder
dispatches on; the zerolog event/context collaborators as lists of
typed writer calls (`SinkOp`); the trace buffer collaborator as a list
of typed write calls (`TraceOp`).  Panics (failed `.(string)` type
assertions, nil-buffer dereference) are modelled explicitly.
-/

namespace Rlog

/-- A Go `error` value as the encoder observes it: its message and the
stack that `errs.Stack` extracts from it (stack contents are opaque to
this core and modelled as a byte list). -/
structure GoErr where
  msg : String
  stk : List Nat
deriving DecidableEq, Repr

/-- Go `uuid.UUID` is `[16]byte`: a byte list of length 16. -/
def UuidBytes := { l : List Nat // l.length = 16 }

instance : DecidableEq UuidBytes := fun a b =>
  decidable_of_iff (a.val = b.val) Subtype.ext_iff.symm

instance {ε α : Type} [DecidableEq ε] [DecidableEq α] : DecidableEq (Except ε α) := fun a b =>
  match a, b with
  | .ok x, .ok y => decidable_of_iff (x = y) (by simp)
  | .error x, .error y => decidable_of_iff (x = y) (by simp)
  | .ok _, .error _ => isFalse (by simp)
  | .error _, .ok _ => isFalse (by simp)

/-- A dynamically-typed log field value (`any`), restricted to the
runtime types `addEventEntry` / `addTraceBufEntry` dispatch on, plus
`vother` for every type outside the enumerated set.  `vother` carries
the outcome of `json.Marshal` on the value (an external collaborator):
either the serialized bytes or the serialization error message.
Numeric contents are carried exactly; width constraints of the Go
types are irrelevant to every property proved here. -/
inductive Val where
  | verr     (e : GoErr)
  | vstr     (s : String)
  | vbool    (b : Bool)
  | vtime    (t : Nat)
  | vdur     (d : Int)
  | vuuid    (u : UuidBytes)
  | vint8    (n : Int)
  | vint16   (n : Int)
  | vint32   (n : Int)
  | vint64   (n : Int)
  | vint     (n : Int)
  | vuint8   (n : Nat)
  | vuint16  (n : Nat)
  | vuint32  (n : Nat)
  | vuint64  (n : Nat)
  | vuint    (n : Nat)
  | vfloat32 (bits : Nat)
  | vfloat64 (bits : Nat)
  | vother   (marshal : Except String (List Nat))
deriving DecidableEq

/-- One typed write call on the `trace.Buffer` collaborator, as issued
by `doLog` / `addTraceBufEntry`. -/
inductive TraceOp where
  | byteOp       (b : Nat)
  | stringOp     (s : String)
  | bytesOp      (bs : List Nat)
  | uvarintOp    (n : Nat)
  | varintOp     (i : Int)
  | boolOp       (b : Bool)
  | timeOp       (t : Nat)
  | int64Op      (i : Int)
  | float32Op    (bits : Nat)
  | float64Op    (bits : Nat)
  | byteStringOp (bs : List Nat)
  | errOp        (e : Option String)
  | stackOp      (s : List Nat)
deriving DecidableEq

/-- One typed field-writer call on the zerolog event/context
collaborator (`ev.Str`, `ctx.Int8`, ...), recording which typed writer
was used, the key, and the written content. -/
inductive SinkOp where
  | anErrW     (key : String) (e : GoErr)
  | strW       (key : String) (s : String)
  | boolW      (key : String) (b : Bool)
  | timeW      (key : String) (t : Nat)
  | durW       (key : String) (d : Int)
  | int8W      (key : String) (n : Int)
  | int16W     (key : String) (n : Int)
  | int32W     (key : String) (n : Int)
  | int64W     (key : String) (n : Int)
  | intW       (key : String) (n : Int)
  | uint8W     (key : String) (n : Nat)
  | uint16W    (key : String) (n : Nat)
  | uint32W    (key : String) (n : Nat)
  | uint64W    (key : String) (n : Nat)
  | uintW      (key : String) (n : Nat)
  | float32W   (key : String) (bits : Nat)
  | float64W   (key : String) (bits : Nat)
  | interfaceW (key : String) (marshal : Except String (List Nat))
deriving DecidableEq

/-- The key a sink writer call was issued with. -/
def SinkOp.keyOf : SinkOp → String
  | .anErrW k _ => k
  | .strW k _ => k
  | .boolW k _ => k
  | .timeW k _ => k
  | .durW k _ => k
  | .int8W k _ => k
  | .int16W k _ => k
  | .int32W k _ => k
  | .int64W k _ => k
  | .intW k _ => k
  | .uint8W k _ => k
  | .uint16W k _ => k
  | .uint32W k _ => k
  | .uint64W k _ => k
  | .uintW k _ => k
  | .float32W k _ => k
  | .float64W k _ => k
  | .interfaceW k _ => k

/-- The current request (`curr.Req`): carries the span id bytes. -/
structure Req where
  spanID : List Nat
deriving DecidableEq

/-- Result of `l.rt.Current()`: the current execution's request/trace
association. `traceActive` models `curr.Trace != nil`; `goctr` models
`curr.Goctr`. -/
structure CurrentInfo where
  req : Option Req
  traceActive : Bool
  goctr : Nat
deriving DecidableEq

/-- The `Manager`: the request-tracker handle, reduced to the data a
single log call reads from it — the current association and the base
logger's accumulated sink context (`l.rt.Logger()`). -/
structure Manager where
  curr : CurrentInfo
  baseLogger : List SinkOp
deriving DecidableEq

/-- Source `rlog.Ctx`: a zerolog sub-context, the manager handle, and the
remembered field list. -/
structure Ctx where
  ctx : List SinkOp
  mgr : Manager
  fields : List Val
deriving DecidableEq

/-- Log levels, as in the `logLevel` constants. -/
def levelDebug : Nat := 1

def levelInfo : Nat := 2

def levelWarn : Nat := 3

def levelError : Nat := 4

/-- The reserved internal key namespace (source name `InternalKeyPrefix`). -/
def internalKeyPref : String := "encore_"

/-- Go `strings.HasPrefix key InternalKeyPrefix`, on the character
sequence of the string. -/
def reserved (key : String) : Bool :=
  internalKeyPref.data.isPrefixOf key.data

/-- Source `pairs`: drop the last entry when the list has odd length. -/
def pairs (keysAndValues : List Val) : List Val :=
  let num := keysAndValues.length
  if num % 2 = 1 then keysAndValues.take (num - 1) else keysAndValues

/-- Source `addEventEntry`: reserved-key guard, then dispatch on the value's
runtime type to the event's most specific typed writer.  Returns the
single writer call issued on the event. -/
def addEventEntry (key : String) (val : Val) : SinkOp :=
  let key := if reserved key then "x_" ++ key else key
  match val with
  | .verr e => .anErrW key e
  | .vstr s => .strW key s
  | .vbool b => .boolW key b
  | .vtime t => .timeW key t
  | .vdur d => .durW key d
  | .vuuid u => .strW key (toString u.val)
  | .vother m => .interfaceW key m
  | .vint8 n => .int8W key n
  | .vint16 n => .int16W key n
  | .vint32 n => .int32W key n
  | .vint64 n => .int64W key n
  | .vint n => .intW key n
  | .vuint8 n => .uint8W key n
  | .vuint16 n => .uint16W key n
  | .vuint32 n => .uint32W key n
  | .vuint64 n => .uint64W key n
  | .vuint n => .uintW key n
  | .vfloat32 b => .float32W key b
  | .vfloat64 b => .float64W key b

/-- Source `addContext`: same guard and dispatch as `addEventEntry`, issued
on a zerolog context, which returns the extended context. -/
def addContext (ctx : List SinkOp) (key : String) (val : Val) : List SinkOp :=
  let key := if reserved key then "x_" ++ key else key
  match val with
  | .verr e => ctx ++ [.anErrW key e]
  | .vstr s => ctx ++ [.strW key s]
  | .vbool b => ctx ++ [.boolW key b]
  | .vtime t => ctx ++ [.timeW key t]
  | .vdur d => ctx ++ [.durW key d]
  | .vuuid u => ctx ++ [.strW key (toString u.val)]
  | .vother m => ctx ++ [.interfaceW key m]
  | .vint8 n => ctx ++ [.int8W key n]
  | .vint16 n => ctx ++ [.int16W key n]
  | .vint32 n => ctx ++ [.int32W key n]
  | .vint64 n => ctx ++ [.int64W key n]
  | .vint n => ctx ++ [.intW key n]
  | .vuint8 n => ctx ++ [.uint8W key n]
  | .vuint16 n => ctx ++ [.uint16W key n]
  | .vuint32 n => ctx ++ [.uint32W key n]
  | .vuint64 n => ctx ++ [.uint64W key n]
  | .vuint n => ctx ++ [.uintW key n]
  | .vfloat32 b => ctx ++ [.float32W key b]
  | .vfloat64 b => ctx ++ [.float64W key b]

/-- Trace type-tag constants (`errType` .. `float64Type`). -/
def errType : Nat := 1

def strType : Nat := 2

def boolType : Nat := 3

def timeType : Nat := 4

def durType : Nat := 5

def uuidType : Nat := 6

def jsonType : Nat := 7

def intType : Nat := 8

def uintType : Nat := 9

def float32Type : Nat := 10

def float64Type : Nat := 11

/-- Source `addTraceBufEntry`: dispatch on the value's runtime type and issue
the tag byte, the key, and the type-specific payload writes on the
trace buffer.  Note: no reserved-key guard is applied here (the source
writes the key as given). -/
def addTraceBufEntry (key : String) (val : Val) : List TraceOp :=
  match val with
  | .verr e =>
      [.byteOp errType, .stringOp key, .errOp (some e.msg), .stackOp e.stk]
  | .vstr s =>
      [.byteOp strType, .stringOp key, .stringOp s]
  | .vbool b =>
      [.byteOp boolType, .stringOp key, .boolOp b]
  | .vtime t =>
      [.byteOp timeType, .stringOp key, .timeOp t]
  | .vdur d =>
      [.byteOp durType, .stringOp key, .int64Op d]
  | .vuuid u =>
      [.byteOp uuidType, .stringOp key, .bytesOp u.val]
  | .vother m =>
      [.byteOp jsonType, .stringOp key] ++
      (match m with
       | .ok data => [.byteStringOp data, .errOp none]
       | .error e => [.byteStringOp [], .errOp (some e)])
  | .vint8 n => [.byteOp intType, .stringOp key, .varintOp n]
  | .vint16 n => [.byteOp intType, .stringOp key, .varintOp n]
  | .vint32 n => [.byteOp intType, .stringOp key, .varintOp n]
  | .vint64 n => [.byteOp intType, .stringOp key, .varintOp n]
  | .vint n => [.byteOp intType, .stringOp key, .varintOp n]
  | .vuint8 n => [.byteOp uintType, .stringOp key, .uvarintOp n]
  | .vuint16 n => [.byteOp uintType, .stringOp key, .uvarintOp n]
  | .vuint32 n => [.byteOp uintType, .stringOp key, .uvarintOp n]
  | .vuint64 n => [.byteOp uintType, .stringOp key, .uvarintOp n]
  | .vuint n => [.byteOp uintType, .stringOp key, .uvarintOp n]
  | .vfloat32 b => [.byteOp float32Type, .stringOp key, .float32Op b]
  | .vfloat64 b => [.byteOp float64Type, .stringOp key, .float64Op b]

/-- The `fields[i].(string)` type assertion: `some` on a string value,
`none` (a panic) on anything else. -/
def asKey : Val → Option String
  | .vstr s => some s
  | _ => none

/-- The `doLog` context-field loop body (runs only when a trace buffer
exists): asserts each key and appends that field's trace writes.
`none` models a panic (failed assertion, or out-of-range index on an
odd-length list). -/
def traceEntriesLoop : List Val → Option (List TraceOp)
  | [] => some []
  | k :: v :: rest =>
      match asKey k with
      | none => none
      | some key =>
          match traceEntriesLoop rest with
          | none => none
          | some ts => some (addTraceBufEntry key v ++ ts)
  | _ :: [] => none

/-- The `doLog` call-site-field loop: asserts each key, issues the
event writer call, and, when a trace buffer exists (`hasTb`), also the
trace writes.  `none` models a panic. -/
def logFieldsLoop (hasTb : Bool) : List Val → Option (List SinkOp × List TraceOp)
  | [] => some ([], [])
  | k :: v :: rest =>
      match asKey k with
      | none => none
      | some key =>
          match logFieldsLoop hasTb rest with
          | none => none
          | some (evs, ts) =>
              some (addEventEntry key v :: evs,
                    (if hasTb then addTraceBufEntry key v else []) ++ ts)
  | _ :: [] => none

/-- Modelled from the spec: the stack-capture collaborator
(`stack.Build(3)`), whose serialized form is opaque to this core. -/
def builtStack : List Nat := []

/-- The observable outcome of one `doLog` call: the event committed to
the structured sink by `ev.Msg` (`none` if a panic occurred before
emission), the record handed to `curr.Trace.Add` (if any), and whether
the call panicked. -/
structure LogOutcome where
  emittedEvent : Option (List SinkOp × String)
  traceOut : Option (List TraceOp)
  panicked : Bool
deriving DecidableEq

/-- Source `doLog`, translated step for step: the trace buffer is created
only when both a request and a trace are active; the header writes the
span id, goroutine counter, level byte, message, and field count; the
context-field loop runs only when the buffer exists; the call-site
loop writes the event fields and, when the buffer exists, the trace
fields; `ev.Msg` emits; the epilogue — guarded only by `curr.Trace !=
nil` — writes the stack and hands over the record, dereferencing a nil
buffer (a panic) when no request was active. -/
def doLog (curr : CurrentInfo) (level : Nat) (evBase : List SinkOp) (msg : String)
    (ctxFields logFields : List Val) : LogOutcome :=
  let numFields := ctxFields.length / 2 + logFields.length / 2
  let tb : Option (List TraceOp) :=
    match curr.req, curr.traceActive with
    | some r, true =>
        some [.bytesOp r.spanID, .uvarintOp curr.goctr, .byteOp level,
              .stringOp msg, .uvarintOp numFields]
    | _, _ => none
  let afterCtx : Option (Option (List TraceOp)) :=
    match tb with
    | some ops =>
        match traceEntriesLoop ctxFields with
        | some es => some (some (ops ++ es))
        | none => none
    | none => some none
  match afterCtx with
  | none => ⟨none, none, true⟩
  | some tb1 =>
      match logFieldsLoop tb1.isSome logFields with
      | none => ⟨none, none, true⟩
      | some (evOps, tOps) =>
          let emitted := some (evBase ++ evOps, msg)
          if curr.traceActive then
            match tb1 with
            | some ops => ⟨emitted, some (ops ++ tOps ++ [.stackOp builtStack]), false⟩
            | none => ⟨emitted, none, true⟩
          else ⟨emitted, none, false⟩

/-- The `Manager.With` / `Ctx.With` loop: assert each key and layer it
onto the zerolog context.  `none` models a panic. -/
def withLoop (c : List SinkOp) : List Val → Option (List SinkOp)
  | [] => some c
  | k :: v :: rest =>
      match asKey k with
      | none => none
      | some key => withLoop (addContext c key v) rest
  | _ :: [] => none

/-- Source `Manager.With`: normalize, layer onto a fresh sub-context derived
from the base logger, and package the normalized field list.  `none`
models a panic on a non-string key. -/
def ManagerWith (m : Manager) (keysAndValues : List Val) : Option Ctx :=
  let fields := pairs keysAndValues
  match withLoop m.baseLogger fields with
  | none => none
  | some c => some ⟨c, m, fields⟩

/-- Source `Ctx.With`: layer onto the receiver's sub-context and concatenate
the field lists; the receiver is returned to the caller untouched. -/
def CtxWith (ctx : Ctx) (keysAndValues : List Val) : Option Ctx :=
  let fields := pairs keysAndValues
  match withLoop ctx.ctx fields with
  | none => none
  | some c => some ⟨c, ctx.mgr, ctx.fields ++ fields⟩

/-- Source `Manager.Debug`. -/
def ManagerDebug (m : Manager) (msg : String) (keysAndValues : List Val) : LogOutcome :=
  doLog m.curr levelDebug m.baseLogger msg [] (pairs keysAndValues)

/-- Source `Manager.Info`. -/
def ManagerInfo (m : Manager) (msg : String) (keysAndValues : List Val) : LogOutcome :=
  doLog m.curr levelInfo m.baseLogger msg [] (pairs keysAndValues)

/-- Source `Manager.Warn`. -/
def ManagerWarn (m : Manager) (msg : String) (keysAndValues : List Val) : LogOutcome :=
  doLog m.curr levelWarn m.baseLogger msg [] (pairs keysAndValues)

/-- Source `Manager.Error`. -/
def ManagerError (m : Manager) (msg : String) (keysAndValues : List Val) : LogOutcome :=
  doLog m.curr levelError m.baseLogger msg [] (pairs keysAndValues)

/-- Source `Ctx.Debug`: the event is created from the sub-context's logger,
the remembered fields are passed as inherited context. -/
def CtxDebug (c : Ctx) (msg : String) (keysAndValues : List Val) : LogOutcome :=
  doLog c.mgr.curr levelDebug c.ctx msg c.fields (pairs keysAndValues)

/-- Source `Ctx.Info`. -/
def CtxInfo (c : Ctx) (msg : String) (keysAndValues : List Val) : LogOutcome :=
  doLog c.mgr.curr levelInfo c.ctx msg c.fields (pairs keysAndValues)

/-- Source `Ctx.Warn`. -/
def CtxWarn (c : Ctx) (msg : String) (keysAndValues : List Val) : LogOutcome :=
  doLog c.mgr.curr levelWarn c.ctx msg c.fields (pairs keysAndValues)

/-- Source `Ctx.Error`. -/
def CtxError (c : Ctx) (msg : String) (keysAndValues : List Val) : LogOutcome :=
  doLog c.mgr.curr levelError c.ctx msg c.fields (pairs keysAndValues)

/-! ## Statement apparatus -/

/-- Whether a dynamic value is a Go `string`. -/
def isStrVal : Val → Bool
  | .vstr _ => true
  | _ => false

/-- The string carried by a `vstr`; arbitrary on other values (used
only under `goodPairs`). -/
def keyOfVal : Val → String
  | .vstr s => s
  | _ => ""

/-- A well-shaped key/value list: even length with a string in every
key position.  Exactly the inputs on which the source's loops cannot
panic. -/
def goodPairs : List Val → Bool
  | [] => true
  | .vstr _ :: _ :: rest => goodPairs rest
  | _ => false

/-- The key/value pairs of a flat list (ignoring a dangling element). -/
def pairsOf : List Val → List (Val × Val)
  | k :: v :: rest => (k, v) :: pairsOf rest
  | _ => []

/-- The event writer calls the call-site loop issues, one per pair, in
order. -/
def sinkList : List Val → List SinkOp
  | k :: v :: rest => addEventEntry (keyOfVal k) v :: sinkList rest
  | _ => []

/-- The trace writer calls a field loop issues, in order. -/
def traceList : List Val → List TraceOp
  | k :: v :: rest => addTraceBufEntry (keyOfVal k) v ++ traceList rest
  | _ => []

/-- The type tag `addTraceBufEntry` writes first for a given value. -/
def tbTag (key : String) (v : Val) : Nat :=
  match addTraceBufEntry key v with
  | .byteOp t :: _ => t
  | _ => 0

/-! ## Loop lemmas -/

theorem asKey_eq_some_of_isStr {k : Val} (h : isStrVal k = true) :
    asKey k = some (keyOfVal k) := by
  cases k <;> simp_all [isStrVal, asKey, keyOfVal]

theorem goodPairs_cons {k v : Val} {rest : List Val} (h : goodPairs (k :: v :: rest) = true) :
    isStrVal k = true ∧ goodPairs rest = true := by
  cases k <;> simp_all [goodPairs, isStrVal]

theorem addContext_eq_append (c : List SinkOp) (key : String) (v : Val) :
    addContext c key v = c ++ [addEventEntry key v] := by
  cases v <;> rfl

theorem traceEntriesLoop_eq {l : List Val} (h : goodPairs l = true) :
    traceEntriesLoop l = some (traceList l) := by
  induction l using goodPairs.induct with
  | case1 => rfl
  | case2 s v rest ih =>
      simp only [goodPairs] at h
      simp [traceEntriesLoop, asKey, traceList, keyOfVal, ih h]
  | case3 l hnil hcons => simp_all [goodPairs]

theorem logFieldsLoop_eq (hasTb : Bool) {l : List Val} (h : goodPairs l = true) :
    logFieldsLoop hasTb l =
      some (sinkList l, if hasTb then traceList l else []) := by
  induction l using goodPairs.induct with
  | case1 => cases hasTb <;> rfl
  | case2 s v rest ih =>
      simp only [goodPairs] at h
      cases hasTb <;>
        simp [logFieldsLoop, asKey, sinkList, traceList, keyOfVal, ih h]
  | case3 l hnil hcons => simp_all [goodPairs]

theorem withLoop_eq {l : List Val} (h : goodPairs l = true) :
    ∀ c, withLoop c l = some (c ++ sinkList l) := by
  induction l using goodPairs.induct with
  | case1 => intro c; simp [withLoop, sinkList]
  | case2 s v rest ih =>
      intro c
      simp only [goodPairs] at h
      simp only [withLoop, asKey]
      rw [ih h, addContext_eq_append]
      simp [sinkList, keyOfVal]
  | case3 l hnil hcons => simp_all [goodPairs]

theorem sinkList_length {l : List Val} (h : goodPairs l = true) :
    (sinkList l).length = (pairsOf l).length := by
  induction l using goodPairs.induct with
  | case1 => simp [sinkList, pairsOf]
  | case2 s v rest ih =>
      simp only [goodPairs] at h
      simp [sinkList, pairsOf, ih h]
  | case3 l hnil hcons => simp_all [goodPairs]

theorem pairsOf_length_of_even {l : List Val} (h : l.length % 2 = 0) :
    (pairsOf l).length = l.length / 2 := by
  induction l using pairsOf.induct with
  | case1 k v rest ih =>
      simp only [List.length_cons] at h
      have h2 : rest.length % 2 = 0 := by omega
      have h3 := ih h2
      simp only [pairsOf, List.length_cons, h3]
      omega
  | case2 l hcons =>
      match l, hcons with
      | [], _ => simp [pairsOf]
      | [x], _ => simp [List.length_cons] at h
      | k :: v :: rest, hc => exact absurd rfl (hc k v rest)

theorem goodPairs_even {l : List Val} (h : goodPairs l = true) :
    l.length % 2 = 0 := by
  induction l using goodPairs.induct with
  | case1 => simp
  | case2 s v rest ih =>
      simp only [goodPairs] at h
      have h2 := ih h
      simp only [List.length_cons]
      omega
  | case3 l hnil hcons => simp_all [goodPairs]

/-! ## doLog evaluation lemmas -/

/-- With no active trace, `doLog` emits and does no trace work,
whatever the request state and context fields. -/
theorem doLog_no_trace (curr : CurrentInfo) (level : Nat) (evBase : List SinkOp)
    (msg : String) (ctxFields logFields : List Val)
    (ht : curr.traceActive = false) (hl : goodPairs logFields = true) :
    doLog curr level evBase msg ctxFields logFields =
      ⟨some (evBase ++ sinkList logFields, msg), none, false⟩ := by
  unfold doLog
  rw [ht]
  cases hr : curr.req <;>
    simp [logFieldsLoop_eq false hl, ht]

/-- With both a request and a trace active, `doLog` emits, appends the
full record, and returns normally. -/
theorem doLog_traced (curr : CurrentInfo) (level : Nat) (evBase : List SinkOp)
    (msg : String) (ctxFields logFields : List Val) (r : Req)
    (hr : curr.req = some r) (ht : curr.traceActive = true)
    (hc : goodPairs ctxFields = true) (hl : goodPairs logFields = true) :
    doLog curr level evBase msg ctxFields logFields =
      ⟨some (evBase ++ sinkList logFields, msg),
       some ([.bytesOp r.spanID, .uvarintOp curr.goctr, .byteOp level,
              .stringOp msg,
              .uvarintOp (ctxFields.length / 2 + logFields.length / 2)] ++
             traceList ctxFields ++ traceList logFields ++
             [.stackOp builtStack]),
       false⟩ := by
  unfold doLog
  rw [hr, ht, traceEntriesLoop_eq hc]
  simp [logFieldsLoop_eq true hl, ht, List.append_assoc]

/-- With no active request but an active trace, `doLog` emits the
structured event and then panics dereferencing the nil trace buffer;
no record reaches the trace. -/
theorem doLog_nil_buffer (curr : CurrentInfo) (level : Nat) (evBase : List SinkOp)
    (msg : String) (ctxFields logFields : List Val)
    (hr : curr.req = none) (ht : curr.traceActive = true)
    (hl : goodPairs logFields = true) :
    doLog curr level evBase msg ctxFields logFields =
      ⟨some (evBase ++ sinkList logFields, msg), none, true⟩ := by
  unfold doLog
  rw [hr, ht]
  simp [logFieldsLoop_eq false hl, ht]

/-- Under well-shaped fields the structured event is emitted in every
request/trace combination. -/
theorem doLog_emit_all (curr : CurrentInfo) (level : Nat) (evBase : List SinkOp)
    (msg : String) (ctxFields logFields : List Val)
    (hc : goodPairs ctxFields = true) (hl : goodPairs logFields = true) :
    (doLog curr level evBase msg ctxFields logFields).emittedEvent =
      some (evBase ++ sinkList logFields, msg) := by
  cases ht : curr.traceActive
  · rw [doLog_no_trace curr level evBase msg ctxFields logFields ht hl]
  · cases hr : curr.req with
    | none => rw [doLog_nil_buffer curr level evBase msg ctxFields logFields hr ht hl]
    | some r => rw [doLog_traced curr level evBase msg ctxFields logFields r hr ht hc hl]

/-- Every accumulation step of `withLoop` only appends; the starting
context is a prefix of the result. -/
theorem withLoop_extends : ∀ (l : List Val) (c c' : List SinkOp),
    withLoop c l = some c' → ∃ t, c' = c ++ t
  | [], c, c', h => ⟨[], by
      simp only [withLoop, Option.some.injEq] at h
      simp [h.symm]⟩
  | k :: v :: rest, c, c', h => by
      unfold withLoop at h
      cases hk : asKey k with
      | none => rw [hk] at h; exact absurd h (by simp)
      | some key =>
          rw [hk] at h
          obtain ⟨t, ht⟩ := withLoop_extends rest (addContext c key v) c' h
          exact ⟨addEventEntry key v :: t, by
            rw [ht, addContext_eq_append]; simp⟩
  | _ :: [], c, c', h => by
      unfold withLoop at h
      exact absurd h (by simp)

/-- A value in a key position that is not a string fails the `.(string)`
assertion. -/
theorem isStrVal_false_asKey {k : Val} (h : isStrVal k = false) : asKey k = none := by
  cases k <;> simp_all [isStrVal, asKey]

/-- A non-string value at an even index of an even-length list makes
`withLoop` panic, from any starting context. -/
theorem withLoop_bad : ∀ (l : List Val) (i : Nat) (hi : i < l.length),
    l.length % 2 = 0 → i % 2 = 0 → isStrVal (l.get ⟨i, hi⟩) = false →
    ∀ c, withLoop c l = none
  | [], i, hi, _, _, _ => absurd hi (by simp)
  | [_], _, _, hlen, _, _ => by simp at hlen
  | k :: v :: rest, 0, hi, _, _, hbad => by
      intro c
      have h : asKey k = none := isStrVal_false_asKey hbad
      simp [withLoop, h]
  | _ :: _ :: _, 1, _, _, hodd, _ => by simp at hodd
  | k :: v :: rest, (i+2), hi, hlen, hpar, hbad => by
      intro c
      have hi2 : i < rest.length := by
        simp only [List.length_cons] at hi; omega
      have hb2 : isStrVal (rest.get ⟨i, hi2⟩) = false := hbad
      have hl2 : rest.length % 2 = 0 := by
        simp only [List.length_cons] at hlen; omega
      have ih := withLoop_bad rest i hi2 hl2 (by omega) hb2
      cases hk : asKey k with
      | none => simp [withLoop, hk]
      | some key => simp [withLoop, hk, ih (addContext c key v)]

/-- A non-string value at an even index of an even-length list makes
the call-site field loop panic. -/
theorem logFieldsLoop_bad : ∀ (hasTb : Bool) (l : List Val) (i : Nat) (hi : i < l.length),
    l.length % 2 = 0 → i % 2 = 0 → isStrVal (l.get ⟨i, hi⟩) = false →
    logFieldsLoop hasTb l = none
  | _, [], i, hi, _, _, _ => absurd hi (by simp)
  | _, [_], _, _, hlen, _, _ => by simp at hlen
  | hasTb, k :: v :: rest, 0, hi, _, _, hbad => by
      have h : asKey k = none := isStrVal_false_asKey hbad
      simp [logFieldsLoop, h]
  | _, _ :: _ :: _, 1, _, _, hodd, _ => by simp at hodd
  | hasTb, k :: v :: rest, (i+2), hi, hlen, hpar, hbad => by
      have hi2 : i < rest.length := by
        simp only [List.length_cons] at hi; omega
      have hb2 : isStrVal (rest.get ⟨i, hi2⟩) = false := hbad
      have hl2 : rest.length % 2 = 0 := by
        simp only [List.length_cons] at hlen; omega
      have ih := logFieldsLoop_bad hasTb rest i hi2 hl2 (by omega) hb2
      cases hk : asKey k with
      | none => simp [logFieldsLoop, hk]
      | some key => simp [logFieldsLoop, hk, ih]

/-- If the call-site loop panics for either buffer state, `doLog`
panics, whatever the request/trace association and context fields. -/
theorem doLog_panics_of_logFields (curr : CurrentInfo) (level : Nat)
    (evBase : List SinkOp) (msg : String) (ctxFields logFields : List Val)
    (h : ∀ b, logFieldsLoop b logFields = none) :
    (doLog curr level evBase msg ctxFields logFields).panicked = true := by
  unfold doLog
  cases hr : curr.req <;> cases ht : curr.traceActive <;>
    cases he : traceEntriesLoop ctxFields <;> simp [h, he]

/-- Source `pairs` always returns an even-length list. -/
theorem pairs_even (l : List Val) : (pairs l).length % 2 = 0 := by
  unfold pairs
  by_cases h : l.length % 2 = 1
  · rw [if_pos h]
    simp only [List.length_take]
    omega
  · rw [if_neg h]
    omega

/-! ## Claims -/

/-- C1 (counterexample): the claim says the escaped key is written to
BOTH destinations; but `addTraceBufEntry` writes the original,
un-escaped key for the reserved key `"encore_test"`. -/
theorem claim1_counterexample :
    reserved "encore_test" = true ∧
    (addTraceBufEntry "encore_test" (Val.vstr "v"))[1]? =
      some (TraceOp.stringOp "encore_test") ∧
    (("encore_test" : String) == "x_" ++ "encore_test") = false := by
  refine ⟨by decide, rfl, by decide⟩

/-- C1 (amended): keys starting with the reserved internal `"encore_"`
namespace are written with the `"x_"` escape marker prepended in the
structured-sink encodings (both the event writer and the context
writer, which issues the same guarded writer call); the trace-buffer
encoding always writes the original key unchanged, reserved or not;
keys not starting with the reserved namespace are written unchanged
everywhere. -/
theorem claim1_amended (key : String) (v : Val) :
    (reserved key = true → (addEventEntry key v).keyOf = "x_" ++ key) ∧
    (reserved key = false → (addEventEntry key v).keyOf = key) ∧
    (∀ c, addContext c key v = c ++ [addEventEntry key v]) ∧
    (addTraceBufEntry key v)[1]? = some (TraceOp.stringOp key) := by
  refine ⟨?_, ?_, fun c => addContext_eq_append c key v, ?_⟩
  · intro h; cases v <;> simp [addEventEntry, SinkOp.keyOf, h]
  · intro h; cases v <;> simp [addEventEntry, SinkOp.keyOf, h]
  · cases v with
    | vother m => cases m <;> rfl
    | _ => rfl

/-- C1 (witness for the amended claim). -/
theorem claim1_witness :
    (addEventEntry "encore_a" (Val.vbool true)).keyOf = "x_" ++ "encore_a" ∧
    (addEventEntry "plain" (Val.vbool true)).keyOf = "plain" :=
  ⟨(claim1_amended "encore_a" (Val.vbool true)).1 (by decide),
   (claim1_amended "plain" (Val.vbool true)).2.1 (by decide)⟩

/-- C5: the trace-buffer type tag is a function of the value's runtime
type only, never of its content: error→1, string→2, bool→3, time→4,
duration→5, UUID→6, fallback→7, every signed width→8, every unsigned
width→9, float32→10, float64→11. -/
theorem claim5_tag_table (key : String) :
    (∀ e, tbTag key (.verr e) = errType) ∧
    (∀ s, tbTag key (.vstr s) = strType) ∧
    (∀ b, tbTag key (.vbool b) = boolType) ∧
    (∀ t, tbTag key (.vtime t) = timeType) ∧
    (∀ d, tbTag key (.vdur d) = durType) ∧
    (∀ u, tbTag key (.vuuid u) = uuidType) ∧
    (∀ m, tbTag key (.vother m) = jsonType) ∧
    (∀ n, tbTag key (.vint8 n) = intType) ∧
    (∀ n, tbTag key (.vint16 n) = intType) ∧
    (∀ n, tbTag key (.vint32 n) = intType) ∧
    (∀ n, tbTag key (.vint64 n) = intType) ∧
    (∀ n, tbTag key (.vint n) = intType) ∧
    (∀ n, tbTag key (.vuint8 n) = uintType) ∧
    (∀ n, tbTag key (.vuint16 n) = uintType) ∧
    (∀ n, tbTag key (.vuint32 n) = uintType) ∧
    (∀ n, tbTag key (.vuint64 n) = uintType) ∧
    (∀ n, tbTag key (.vuint n) = uintType) ∧
    (∀ b, tbTag key (.vfloat32 b) = float32Type) ∧
    (∀ b, tbTag key (.vfloat64 b) = float64Type) := by
  refine ⟨fun _ => rfl, fun _ => rfl, fun _ => rfl, fun _ => rfl, fun _ => rfl,
    fun _ => rfl, fun m => ?_, fun _ => rfl, fun _ => rfl, fun _ => rfl,
    fun _ => rfl, fun _ => rfl, fun _ => rfl, fun _ => rfl, fun _ => rfl,
    fun _ => rfl, fun _ => rfl, fun _ => rfl, fun _ => rfl⟩
  cases m <;> rfl

/-- C7: the field-pair normalizer returns the longest even-length
prefix of its input: even length, a prefix of the input (hence no
reordering), equal to `take (2*(n/2))`, the input itself on even
length, the input minus its last element on odd length, and no even
prefix is longer. -/
theorem claim7_normalizer (l : List Val) :
    (pairs l).length % 2 = 0 ∧
    pairs l <+: l ∧
    pairs l = l.take (2 * (l.length / 2)) ∧
    (l.length % 2 = 0 → pairs l = l) ∧
    (l.length % 2 = 1 → pairs l = l.dropLast) ∧
    (∀ p : List Val, p <+: l → p.length % 2 = 0 → p.length ≤ (pairs l).length) := by
  unfold pairs
  by_cases h : l.length % 2 = 1
  · rw [if_pos h]
    refine ⟨?_, List.take_prefix _ l, ?_, ?_, ?_, ?_⟩
    · simp only [List.length_take]
      omega
    · have h3 : l.length - 1 = 2 * (l.length / 2) := by omega
      rw [h3]
    · intro h0; exact absurd h0 (by omega)
    · intro _; exact (List.dropLast_eq_take l).symm
    · intro p hp hpe
      have h1 := hp.length_le
      have h2 : p.length ≠ l.length := by omega
      simp only [List.length_take]
      omega
  · have h0 : l.length % 2 = 0 := by omega
    rw [if_neg h]
    refine ⟨h0, List.prefix_refl l, ?_, fun _ => rfl, ?_, ?_⟩
    · have h3 : 2 * (l.length / 2) = l.length := by omega
      rw [h3, List.take_length]
    · intro h1; exact absurd h1 (by omega)
    · intro p hp _; exact hp.length_le

/-- C7 (witness): a three-element list loses its last element; a
two-element list is unchanged. -/
theorem claim7_witness :
    pairs [Val.vstr "a", Val.vbool true, Val.vstr "b"] = [Val.vstr "a", Val.vbool true] ∧
    pairs [Val.vstr "a", Val.vbool true] = [Val.vstr "a", Val.vbool true] :=
  ⟨by
    have h := (claim7_normalizer [Val.vstr "a", Val.vbool true, Val.vstr "b"]).2.2.2.2.1
    rw [h (by decide)]
    rfl,
   (claim7_normalizer [Val.vstr "a", Val.vbool true]).2.2.2.1 (by decide)⟩

/-- C8: for a value outside the enumerated type set the trace encoder
writes the JSON-fallback tag and the key, then, on marshal success,
the serialized bytes followed by a nil error marker; on marshal
failure, an empty payload followed by the serialization error as data.
The field loop still returns normally in both cases, so the encoding
never aborts the log call. -/
theorem claim8_json_fallback (key : String) (d : List Nat) (e : String) :
    addTraceBufEntry key (.vother (.ok d)) =
      [.byteOp jsonType, .stringOp key, .byteStringOp d, .errOp none] ∧
    addTraceBufEntry key (.vother (.error e)) =
      [.byteOp jsonType, .stringOp key, .byteStringOp [], .errOp (some e)] ∧
    (∀ hasTb, (logFieldsLoop hasTb [Val.vstr key, Val.vother (.ok d)]).isSome = true) ∧
    (∀ hasTb, (logFieldsLoop hasTb [Val.vstr key, Val.vother (.error e)]).isSome = true) := by
  refine ⟨rfl, rfl, fun hasTb => ?_, fun hasTb => ?_⟩ <;>
    rw [logFieldsLoop_eq hasTb (by rfl)] <;> rfl

/-- C2 (counterexample): the claim guarantees a normal return for ANY
combination of active request and active trace; but with no active
request and an active trace the structured event is emitted and the
call then panics dereferencing the nil trace buffer. -/
theorem claim2_counterexample :
    doLog ⟨none, true, 0⟩ levelInfo [] "m" [] [] =
      ⟨some ([], "m"), none, true⟩ := by
  rfl

/-- C2 (amended): with no active trace, a log call performs no
trace-buffer work, still emits the structured event, and returns
normally, whatever the request state; with both a request and a trace
active it emits, appends a trace record, and returns normally; in the
one remaining combination — no active request together with an active
trace — the structured event is still emitted and no trace record is
produced, but the call then panics dereferencing the nil trace
buffer, so the no-panic guarantee holds in every combination except
that one. -/
theorem claim2_amended (curr : CurrentInfo) (level : Nat) (evBase : List SinkOp)
    (msg : String) (ctxFields logFields : List Val)
    (hc : goodPairs ctxFields = true) (hl : goodPairs logFields = true) :
    (curr.traceActive = false →
      doLog curr level evBase msg ctxFields logFields =
        ⟨some (evBase ++ sinkList logFields, msg), none, false⟩) ∧
    (∀ r, curr.req = some r → curr.traceActive = true →
      (doLog curr level evBase msg ctxFields logFields).panicked = false ∧
      (doLog curr level evBase msg ctxFields logFields).emittedEvent =
        some (evBase ++ sinkList logFields, msg) ∧
      (doLog curr level evBase msg ctxFields logFields).traceOut.isSome = true) ∧
    (curr.req = none → curr.traceActive = true →
      doLog curr level evBase msg ctxFields logFields =
        ⟨some (evBase ++ sinkList logFields, msg), none, true⟩) := by
  refine ⟨fun ht => doLog_no_trace curr level evBase msg ctxFields logFields ht hl,
    fun r hr ht => ?_,
    fun hr ht => doLog_nil_buffer curr level evBase msg ctxFields logFields hr ht hl⟩
  rw [doLog_traced curr level evBase msg ctxFields logFields r hr ht hc hl]
  exact ⟨rfl, rfl, rfl⟩

/-- C2 (witness): with tracing off, a concrete call emits the
structured event and returns normally with no trace output. -/
theorem claim2_witness :
    doLog ⟨some ⟨[1, 2]⟩, false, 0⟩ levelInfo [] "m" []
        [Val.vstr "k", Val.vbool true] =
      ⟨some ([] ++ sinkList [Val.vstr "k", Val.vbool true], "m"), none, false⟩ :=
  (claim2_amended ⟨some ⟨[1, 2]⟩, false, 0⟩ levelInfo [] "m" []
    [Val.vstr "k", Val.vbool true] (by decide) (by decide)).1 rfl

/-- C3: `Ctx.With` never mutates its receiver: the child holds the
parent's field list concatenated with the normalized new pairs, the
same manager, and a sink sub-context that extends (never rewrites) the
parent's; a subsequent log call through the parent emits exactly the
parent's own sub-context, so no key absent from the parent's
sub-context — in particular one added only in the child — can appear
in it. -/
theorem claim3_ctx_with (parent : Ctx) (kvs : List Val) (child : Ctx)
    (h : CtxWith parent kvs = some child) :
    child.fields = parent.fields ++ pairs kvs ∧
    child.mgr = parent.mgr ∧
    (∃ newOps, child.ctx = parent.ctx ++ newOps) ∧
    (goodPairs parent.fields = true → ∀ msg,
      (CtxDebug parent msg []).emittedEvent = some (parent.ctx, msg) ∧
      ∀ k, (∀ op ∈ parent.ctx, op.keyOf ≠ k) →
        ∀ ev, (CtxDebug parent msg []).emittedEvent = some ev →
          ∀ op ∈ ev.1, op.keyOf ≠ k) := by
  simp only [CtxWith] at h
  cases hw : withLoop parent.ctx (pairs kvs) with
  | none => rw [hw] at h; exact absurd h (by simp)
  | some c =>
      rw [hw] at h
      simp only [Option.some.injEq] at h
      obtain ⟨t, ht⟩ := withLoop_extends (pairs kvs) parent.ctx c hw
      refine ⟨by rw [h.symm], by rw [h.symm], ⟨t, by rw [h.symm]; exact ht⟩, ?_⟩
      intro hgp msg
      have hemit : (CtxDebug parent msg []).emittedEvent = some (parent.ctx, msg) := by
        unfold CtxDebug
        have he := doLog_emit_all parent.mgr.curr levelDebug parent.ctx msg
          parent.fields (pairs []) hgp (by rfl)
        simpa [pairs, sinkList] using he
      refine ⟨hemit, fun k hk ev hev op hop => ?_⟩
      rw [hemit] at hev
      simp only [Option.some.injEq] at hev
      rw [hev.symm] at hop
      exact hk op hop

/-- C3 (witness): a concrete parent/child pair. -/
theorem claim3_witness :
    Ctx.fields ⟨[SinkOp.boolW "k" true], ⟨⟨none, false, 0⟩, []⟩,
        [Val.vstr "k", Val.vbool true]⟩ =
      [] ++ pairs [Val.vstr "k", Val.vbool true] :=
  (claim3_ctx_with ⟨[], ⟨⟨none, false, 0⟩, []⟩, []⟩ [Val.vstr "k", Val.vbool true]
    ⟨[SinkOp.boolW "k" true], ⟨⟨none, false, 0⟩, []⟩, [Val.vstr "k", Val.vbool true]⟩
    (by decide)).1

/-- C4: for a traced log call the record begins, in order, with the
span id, the per-request event counter, the level byte, the message,
and the field count; the count written equals the number of inherited
pairs plus the number of call-site pairs and precedes every encoded
field. -/
theorem claim4_header (curr : CurrentInfo) (level : Nat) (evBase : List SinkOp)
    (msg : String) (ctxFields logFields : List Val) (r : Req)
    (hr : curr.req = some r) (ht : curr.traceActive = true)
    (hc : goodPairs ctxFields = true) (hl : goodPairs logFields = true) :
    (doLog curr level evBase msg ctxFields logFields).traceOut =
      some ([TraceOp.bytesOp r.spanID, TraceOp.uvarintOp curr.goctr,
             TraceOp.byteOp level, TraceOp.stringOp msg,
             TraceOp.uvarintOp ((pairsOf ctxFields).length + (pairsOf logFields).length)] ++
            traceList ctxFields ++ traceList logFields ++
            [TraceOp.stackOp builtStack]) := by
  rw [doLog_traced curr level evBase msg ctxFields logFields r hr ht hc hl]
  have h1 := pairsOf_length_of_even (goodPairs_even hc)
  have h2 := pairsOf_length_of_even (goodPairs_even hl)
  simp [h1, h2]

/-- C4 (witness): a concrete traced call with one inherited and one
call-site pair. -/
theorem claim4_witness :
    (doLog ⟨some ⟨[1, 2]⟩, true, 7⟩ levelWarn [] "m"
        [Val.vstr "a", Val.vbool true] [Val.vstr "b", Val.vuint 3]).traceOut =
      some ([TraceOp.bytesOp [1, 2], TraceOp.uvarintOp 7,
             TraceOp.byteOp levelWarn, TraceOp.stringOp "m",
             TraceOp.uvarintOp ((pairsOf [Val.vstr "a", Val.vbool true]).length +
               (pairsOf [Val.vstr "b", Val.vuint 3]).length)] ++
            traceList [Val.vstr "a", Val.vbool true] ++
            traceList [Val.vstr "b", Val.vuint 3] ++
            [TraceOp.stackOp builtStack]) :=
  claim4_header ⟨some ⟨[1, 2]⟩, true, 7⟩ levelWarn [] "m"
    [Val.vstr "a", Val.vbool true] [Val.vstr "b", Val.vuint 3] ⟨[1, 2]⟩
    rfl rfl (by decide) (by decide)

/-- C6: through a Ctx built by `Manager.With`, the emitted structured
event is the base logger's context plus exactly one sub-context writer
call per inherited pair plus exactly one event writer call per
call-site pair — inherited fields are not re-added at log time — and
the trace record (when a trace is active) contains both the inherited
and the call-site fields. -/
theorem claim6_frame (m : Manager) (kvs1 kvs2 : List Val) (c : Ctx) (msg : String)
    (h1 : goodPairs (pairs kvs1) = true) (h2 : goodPairs (pairs kvs2) = true)
    (hw : ManagerWith m kvs1 = some c) :
    (CtxInfo c msg kvs2).emittedEvent =
      some (m.baseLogger ++ sinkList (pairs kvs1) ++ sinkList (pairs kvs2), msg) ∧
    (sinkList (pairs kvs1)).length = (pairsOf (pairs kvs1)).length ∧
    (sinkList (pairs kvs2)).length = (pairsOf (pairs kvs2)).length ∧
    (∀ r, m.curr.req = some r → m.curr.traceActive = true →
      (CtxInfo c msg kvs2).traceOut =
        some ([TraceOp.bytesOp r.spanID, TraceOp.uvarintOp m.curr.goctr,
               TraceOp.byteOp levelInfo, TraceOp.stringOp msg,
               TraceOp.uvarintOp ((pairs kvs1).length / 2 + (pairs kvs2).length / 2)] ++
              traceList (pairs kvs1) ++ traceList (pairs kvs2) ++
              [TraceOp.stackOp builtStack])) := by
  simp only [ManagerWith] at hw
  rw [withLoop_eq h1 m.baseLogger] at hw
  simp only [Option.some.injEq] at hw
  have hctx : c.ctx = m.baseLogger ++ sinkList (pairs kvs1) := by rw [hw.symm]
  have hfld : c.fields = pairs kvs1 := by rw [hw.symm]
  have hmgr : c.mgr = m := by rw [hw.symm]
  refine ⟨?_, sinkList_length h1, sinkList_length h2, ?_⟩
  · unfold CtxInfo
    rw [hmgr, hctx, hfld]
    exact doLog_emit_all m.curr levelInfo (m.baseLogger ++ sinkList (pairs kvs1))
      msg (pairs kvs1) (pairs kvs2) h1 h2
  · intro r hr ht
    unfold CtxInfo
    rw [hmgr, hctx, hfld]
    rw [doLog_traced m.curr levelInfo (m.baseLogger ++ sinkList (pairs kvs1))
      msg (pairs kvs1) (pairs kvs2) r hr ht h1 h2]

/-- C6 (witness): a concrete manager, one inherited pair, one
call-site pair, tracing active. -/
theorem claim6_witness :
    (CtxInfo ⟨[SinkOp.uintW "a" 1], ⟨⟨some ⟨[3]⟩, true, 2⟩, []⟩,
        [Val.vstr "a", Val.vuint 1]⟩ "m" [Val.vstr "b", Val.vuint 2]).emittedEvent =
      some ([] ++ sinkList (pairs [Val.vstr "a", Val.vuint 1]) ++
            sinkList (pairs [Val.vstr "b", Val.vuint 2]), "m") :=
  (claim6_frame ⟨⟨some ⟨[3]⟩, true, 2⟩, []⟩ [Val.vstr "a", Val.vuint 1]
    [Val.vstr "b", Val.vuint 2]
    ⟨[SinkOp.uintW "a" 1], ⟨⟨some ⟨[3]⟩, true, 2⟩, []⟩, [Val.vstr "a", Val.vuint 1]⟩
    "m" (by decide) (by decide) (by decide)).1

/-- C10: string-typed keys are an unstated precondition of the whole
public interface: a non-string value at any even (key) position of the
normalized pair list makes `Manager.With`, `Ctx.With`, and the logging
operations panic rather than degrade or skip the field. -/
theorem claim10_string_keys (m : Manager) (parent : Ctx) (msg : String)
    (kvs : List Val) (i : Nat) (hi : i < (pairs kvs).length)
    (hpar : i % 2 = 0) (hbad : isStrVal ((pairs kvs).get ⟨i, hi⟩) = false) :
    ManagerWith m kvs = none ∧
    CtxWith parent kvs = none ∧
    (ManagerInfo m msg kvs).panicked = true ∧
    (CtxInfo parent msg kvs).panicked = true := by
  have heven := pairs_even kvs
  have hbadLoop := fun b => logFieldsLoop_bad b (pairs kvs) i hi heven hpar hbad
  refine ⟨?_, ?_, ?_, ?_⟩
  · simp only [ManagerWith]
    rw [withLoop_bad (pairs kvs) i hi heven hpar hbad m.baseLogger]
  · simp only [CtxWith]
    rw [withLoop_bad (pairs kvs) i hi heven hpar hbad parent.ctx]
  · exact doLog_panics_of_logFields m.curr levelInfo m.baseLogger msg [] (pairs kvs) hbadLoop
  · exact doLog_panics_of_logFields parent.mgr.curr levelInfo parent.ctx msg
      parent.fields (pairs kvs) hbadLoop

/-- C10 (witness): a boolean in the key position panics a concrete
`Manager.With` and `Manager.Info`. -/
theorem claim10_witness :
    ManagerWith ⟨⟨none, false, 0⟩, []⟩ [Val.vbool true, Val.vstr "v"] = none ∧
    (ManagerInfo ⟨⟨none, false, 0⟩, []⟩ "m" [Val.vbool true, Val.vstr "v"]).panicked = true := by
  have h := claim10_string_keys ⟨⟨none, false, 0⟩, []⟩
    ⟨[], ⟨⟨none, false, 0⟩, []⟩, []⟩ "m" [Val.vbool true, Val.vstr "v"] 0
    (by decide) (by decide) (by decide)
  exact ⟨h.1, h.2.2.1⟩

/-! ## Byte-level trace encoding

The `trace.Buffer` collaborator's byte layout is not part of this
package; the definitions below are modelled from the spec's §4.3
payload-shape table so the decodability claim can be stated. -/

/-- Modelled from the spec: the byte sequence of a Go string as the
trace buffer writes it, abstracted one symbol per character. -/
def strBytes (s : String) : List Nat := s.data.map Char.toNat

/-- Modelled from the spec: base-128 variable-length unsigned integer
encoding (`tb.UVarint`), low groups first, high bit marking
continuation. -/
def uvarintBytes (n : Nat) : List Nat :=
  if _h : n < 128 then [n] else (n % 128 + 128) :: uvarintBytes (n / 128)
decreasing_by exact Nat.div_lt_self (by omega) (by omega)

/-- Modelled from the spec: the zig-zag mapping a signed varint
(`tb.Varint`) applies before the unsigned encoding. -/
def zigzag (i : Int) : Nat :=
  if 0 ≤ i then 2 * i.toNat else 2 * (-i - 1).toNat + 1

/-- Modelled from the spec: little-endian fixed-width bytes. -/
def leBytes : Nat → Nat → List Nat
  | 0, _ => []
  | k + 1, n => n % 256 :: leBytes k (n / 256)

/-- A length-prefixed byte segment. -/
def lp (xs : List Nat) : List Nat := uvarintBytes xs.length ++ xs

/-- The low 64 bits of a signed value, as a natural number (the
modulus literal is 2 to the 64th). -/
def wrap64 (i : Int) : Nat := (i % 18446744073709551616).toNat

/-- Modelled from the spec: the byte serialization of one trace-buffer
write call — strings and byte-strings length-prefixed, varints
base-128, time/duration/floats fixed-width, raw bytes raw, the error
marker one presence byte optionally followed by the message string,
the stack length-prefixed. -/
def opBytes : TraceOp → List Nat
  | .byteOp b => [b]
  | .stringOp s => lp (strBytes s)
  | .bytesOp bs => bs
  | .uvarintOp n => uvarintBytes n
  | .varintOp i => uvarintBytes (zigzag i)
  | .boolOp b => [if b then 1 else 0]
  | .timeOp t => leBytes 8 t
  | .int64Op i => leBytes 8 (wrap64 i)
  | .float32Op bits => leBytes 4 bits
  | .float64Op bits => leBytes 8 bits
  | .byteStringOp bs => lp bs
  | .errOp none => [0]
  | .errOp (some m) => 1 :: lp (strBytes m)
  | .stackOp s => lp s

/-- The bytes of a sequence of write calls. -/
def opsBytes (ops : List TraceOp) : List Nat := (ops.map opBytes).flatten

/-- The payload write calls of one encoded field: everything
`addTraceBufEntry` issues after the tag and the key. -/
def payloadOps (v : Val) : List TraceOp := (addTraceBufEntry "" v).drop 2

/-- The payload bytes of one encoded field. -/
def payloadBytes (v : Val) : List Nat := opsBytes (payloadOps v)

/-- One encoded field, laid out `[tag:1][key:string][payload]` as
`addTraceBufEntry` writes it. -/
def encField (key : String) (v : Val) : List Nat :=
  opsBytes (addTraceBufEntry key v)

/-- The encoded field list of a trace record. -/
def encFields (fs : List (String × Val)) : List Nat :=
  (fs.map (fun p => encField p.1 p.2)).flatten

/-- What the independent decoder recovers for one field. -/
def fieldView (p : String × Val) : Nat × List Nat × List Nat :=
  (tbTag p.1 p.2, strBytes p.1, payloadBytes p.2)

/-! ### The independent decoder -/

/-- Read one base-128 varint: value, consumed bytes, remainder. -/
def readU : List Nat → Option (Nat × List Nat × List Nat)
  | [] => none
  | b :: rest =>
      if b < 128 then some (b, [b], rest)
      else
        match readU rest with
        | some (n, c, r2) => some (n * 128 + (b - 128), b :: c, r2)
        | none => none

/-- Read exactly `k` bytes. -/
def readN (k : Nat) (bs : List Nat) : Option (List Nat × List Nat) :=
  if k ≤ bs.length then some (bs.take k, bs.drop k) else none

/-- Read a length-prefixed segment, returning the consumed bytes
(prefix included) and the remainder. -/
def readLP (bs : List Nat) : Option (List Nat × List Nat) :=
  match readU bs with
  | none => none
  | some (n, c, r1) =>
      match readN n r1 with
      | none => none
      | some (seg, r2) => some (c ++ seg, r2)

/-- Read an error marker: one presence byte, then, when present, the
length-prefixed message. -/
def readErr (bs : List Nat) : Option (List Nat × List Nat) :=
  match bs with
  | 0 :: rest => some ([0], rest)
  | 1 :: rest =>
      match readLP rest with
      | none => none
      | some (c, r2) => some (1 :: c, r2)
  | _ => none

/-- Read the payload of one field according to the §4.3 tag table. -/
def readPayload (tag : Nat) (bs : List Nat) : Option (List Nat × List Nat) :=
  match tag with
  | 1 =>
      match readErr bs with
      | none => none
      | some (c1, r1) =>
          match readLP r1 with
          | none => none
          | some (c2, r2) => some (c1 ++ c2, r2)
  | 2 => readLP bs
  | 3 => readN 1 bs
  | 4 => readN 8 bs
  | 5 => readN 8 bs
  | 6 => readN 16 bs
  | 7 =>
      match readLP bs with
      | none => none
      | some (c1, r1) =>
          match readErr r1 with
          | none => none
          | some (c2, r2) => some (c1 ++ c2, r2)
  | 8 =>
      match readU bs with
      | none => none
      | some (_, c, r) => some (c, r)
  | 9 =>
      match readU bs with
      | none => none
      | some (_, c, r) => some (c, r)
  | 10 => readN 4 bs
  | 11 => readN 8 bs
  | _ => none

/-- Decode one field: tag byte, key bytes, payload bytes, remainder. -/
def decodeField (bs : List Nat) : Option ((Nat × List Nat × List Nat) × List Nat) :=
  match bs with
  | [] => none
  | tag :: rest =>
      match readU rest with
      | none => none
      | some (klen, _, r1) =>
          match readN klen r1 with
          | none => none
          | some (kb, r2) =>
              match readPayload tag r2 with
              | none => none
              | some (pb, r3) => some ((tag, kb, pb), r3)

/-- Decode a list of `n` fields, requiring the input to be consumed
exactly. -/
def decodeFields : Nat → List Nat → Option (List (Nat × List Nat × List Nat))
  | 0, [] => some []
  | 0, _ :: _ => none
  | k + 1, bs =>
      match decodeField bs with
      | none => none
      | some (v, rest) =>
          match decodeFields k rest with
          | none => none
          | some vs => some (v :: vs)

/-! ### Decoder lemmas -/

theorem readU_enc (n : Nat) :
    ∀ r, readU (uvarintBytes n ++ r) = some (n, uvarintBytes n, r) := by
  induction n using Nat.strong_induction_on with
  | _ n ih =>
      intro r
      by_cases h : n < 128
      · unfold uvarintBytes
        rw [dif_pos h]
        simp [readU, h]
      · unfold uvarintBytes
        rw [dif_neg h]
        have hlt : n / 128 < n := Nat.div_lt_self (by omega) (by omega)
        have hrec := ih (n / 128) hlt r
        simp only [List.cons_append, readU, List.append_eq,
          if_neg (by omega : ¬ (n % 128 + 128 < 128))]
        rw [hrec]
        simp
        omega

theorem readN_exact (xs r : List Nat) : readN xs.length (xs ++ r) = some (xs, r) := by
  unfold readN
  rw [if_pos (by simp)]
  rw [List.take_left, List.drop_left]

theorem readN_of_length {k : Nat} (xs r : List Nat) (h : xs.length = k) :
    readN k (xs ++ r) = some (xs, r) := by
  rw [h.symm]
  exact readN_exact xs r

theorem readLP_enc (xs r : List Nat) : readLP (lp xs ++ r) = some (lp xs, r) := by
  unfold readLP lp
  rw [List.append_assoc, readU_enc xs.length (xs ++ r)]
  simp [readN_exact]

theorem readErr_none (r : List Nat) : readErr (0 :: r) = some ([0], r) := rfl

theorem readErr_some (xs r : List Nat) :
    readErr (1 :: lp xs ++ r) = some (1 :: lp xs, r) := by
  simp only [List.cons_append, readErr]
  rw [readLP_enc]

theorem leBytes_length : ∀ (k n : Nat), (leBytes k n).length = k
  | 0, _ => rfl
  | k + 1, n => by simp [leBytes, leBytes_length k (n / 256)]

theorem readPayload_tag1 (a b r : List Nat) :
    readPayload 1 (1 :: lp a ++ (lp b ++ r)) = some (1 :: lp a ++ lp b, r) := by
  simp only [readPayload]
  rw [readErr_some a (lp b ++ r)]
  simp only [readLP_enc]

theorem readPayload_tag2 (a r : List Nat) :
    readPayload 2 (lp a ++ r) = some (lp a, r) :=
  readLP_enc a r

theorem readPayload_tag7_ok (a r : List Nat) :
    readPayload 7 (lp a ++ (0 :: r)) = some (lp a ++ [0], r) := by
  simp only [readPayload]
  rw [readLP_enc a (0 :: r)]
  simp only [readErr_none]

theorem readPayload_tag7_err (a b r : List Nat) :
    readPayload 7 (lp a ++ (1 :: lp b ++ r)) = some (lp a ++ (1 :: lp b), r) := by
  simp only [readPayload]
  rw [readLP_enc a (1 :: lp b ++ r)]
  simp only [readErr_some]

theorem readPayload_tag8 (n : Nat) (r : List Nat) :
    readPayload 8 (uvarintBytes n ++ r) = some (uvarintBytes n, r) := by
  simp only [readPayload]
  rw [readU_enc]

theorem readPayload_tag9 (n : Nat) (r : List Nat) :
    readPayload 9 (uvarintBytes n ++ r) = some (uvarintBytes n, r) := by
  simp only [readPayload]
  rw [readU_enc]

/-- Decoding one encoded field shape: tag byte, length-prefixed key,
then a payload its tag's reader consumes exactly. -/
theorem decodeField_parts (tag : Nat) (kb pb r : List Nat)
    (hp : readPayload tag (pb ++ r) = some (pb, r)) :
    decodeField (tag :: lp kb ++ pb ++ r) = some ((tag, kb, pb), r) := by
  simp only [lp, List.cons_append, List.append_assoc, decodeField]
  rw [readU_enc]
  simp only [readN_exact, hp]

/-- Decoding one field as `addTraceBufEntry` encodes it recovers the
tag, the key bytes, and the payload bytes exactly, leaving the
remainder untouched. -/
theorem decodeField_enc (key : String) (v : Val) (r : List Nat) :
    decodeField (encField key v ++ r) =
      some ((tbTag key v, strBytes key, payloadBytes v), r) := by
  cases v with
  | verr e =>
      have hp : readPayload 1 ((1 :: lp (strBytes e.msg) ++ lp e.stk) ++ r) =
          some (1 :: lp (strBytes e.msg) ++ lp e.stk, r) := by
        simpa [List.append_assoc] using readPayload_tag1 (strBytes e.msg) e.stk r
      have h := decodeField_parts 1 (strBytes key) (1 :: lp (strBytes e.msg) ++ lp e.stk) r hp
      simpa [encField, opsBytes, opBytes, addTraceBufEntry, tbTag, payloadBytes,
        payloadOps, errType, List.append_assoc] using h
  | vstr s =>
      have h := decodeField_parts 2 (strBytes key) (lp (strBytes s)) r
        (readPayload_tag2 (strBytes s) r)
      simpa [encField, opsBytes, opBytes, addTraceBufEntry, tbTag, payloadBytes,
        payloadOps, strType, List.append_assoc] using h
  | vbool b =>
      have hp : readPayload 3 ([if b then 1 else 0] ++ r) =
          some ([if b then 1 else 0], r) := by
        simp only [readPayload]
        exact readN_of_length _ r rfl
      have h := decodeField_parts 3 (strBytes key) [if b then 1 else 0] r hp
      simpa [encField, opsBytes, opBytes, addTraceBufEntry, tbTag, payloadBytes,
        payloadOps, boolType, List.append_assoc] using h
  | vtime t =>
      have hp : readPayload 4 (leBytes 8 t ++ r) = some (leBytes 8 t, r) := by
        simp only [readPayload]
        exact readN_of_length _ r (leBytes_length 8 t)
      have h := decodeField_parts 4 (strBytes key) (leBytes 8 t) r hp
      simpa [encField, opsBytes, opBytes, addTraceBufEntry, tbTag, payloadBytes,
        payloadOps, timeType, List.append_assoc] using h
  | vdur d =>
      have hp : readPayload 5 (leBytes 8 (wrap64 d) ++ r) =
          some (leBytes 8 (wrap64 d), r) := by
        simp only [readPayload]
        exact readN_of_length _ r (leBytes_length 8 (wrap64 d))
      have h := decodeField_parts 5 (strBytes key) (leBytes 8 (wrap64 d)) r hp
      simpa [encField, opsBytes, opBytes, addTraceBufEntry, tbTag, payloadBytes,
        payloadOps, durType, List.append_assoc] using h
  | vuuid u =>
      have hp : readPayload 6 (u.val ++ r) = some (u.val, r) := by
        simp only [readPayload]
        exact readN_of_length _ r u.property
      have h := decodeField_parts 6 (strBytes key) u.val r hp
      simpa [encField, opsBytes, opBytes, addTraceBufEntry, tbTag, payloadBytes,
        payloadOps, uuidType, List.append_assoc] using h
  | vother m =>
      cases m with
      | ok d =>
          have hp : readPayload 7 ((lp d ++ [0]) ++ r) = some (lp d ++ [0], r) := by
            simpa [List.append_assoc] using readPayload_tag7_ok d r
          have h := decodeField_parts 7 (strBytes key) (lp d ++ [0]) r hp
          simpa [encField, opsBytes, opBytes, addTraceBufEntry, tbTag, payloadBytes,
            payloadOps, jsonType, List.append_assoc] using h
      | error e =>
          have hp : readPayload 7 ((lp [] ++ (1 :: lp (strBytes e))) ++ r) =
              some (lp [] ++ (1 :: lp (strBytes e)), r) := by
            simpa [List.append_assoc] using readPayload_tag7_err [] (strBytes e) r
          have h := decodeField_parts 7 (strBytes key) (lp [] ++ (1 :: lp (strBytes e))) r hp
          simpa [encField, opsBytes, opBytes, addTraceBufEntry, tbTag, payloadBytes,
            payloadOps, jsonType, List.append_assoc] using h
  | vint8 n =>
      have h := decodeField_parts 8 (strBytes key) (uvarintBytes (zigzag n)) r
        (readPayload_tag8 (zigzag n) r)
      simpa [encField, opsBytes, opBytes, addTraceBufEntry, tbTag, payloadBytes,
        payloadOps, intType, List.append_assoc] using h
  | vint16 n =>
      have h := decodeField_parts 8 (strBytes key) (uvarintBytes (zigzag n)) r
        (readPayload_tag8 (zigzag n) r)
      simpa [encField, opsBytes, opBytes, addTraceBufEntry, tbTag, payloadBytes,
        payloadOps, intType, List.append_assoc] using h
  | vint32 n =>
      have h := decodeField_parts 8 (strBytes key) (uvarintBytes (zigzag n)) r
        (readPayload_tag8 (zigzag n) r)
      simpa [encField, opsBytes, opBytes, addTraceBufEntry, tbTag, payloadBytes,
        payloadOps, intType, List.append_assoc] using h
  | vint64 n =>
      have h := decodeField_parts 8 (strBytes key) (uvarintBytes (zigzag n)) r
        (readPayload_tag8 (zigzag n) r)
      simpa [encField, opsBytes, opBytes, addTraceBufEntry, tbTag, payloadBytes,
        payloadOps, intType, List.append_assoc] using h
  | vint n =>
      have h := decodeField_parts 8 (strBytes key) (uvarintBytes (zigzag n)) r
        (readPayload_tag8 (zigzag n) r)
      simpa [encField, opsBytes, opBytes, addTraceBufEntry, tbTag, payloadBytes,
        payloadOps, intType, List.append_assoc] using h
  | vuint8 n =>
      have h := decodeField_parts 9 (strBytes key) (uvarintBytes n) r
        (readPayload_tag9 n r)
      simpa [encField, opsBytes, opBytes, addTraceBufEntry, tbTag, payloadBytes,
        payloadOps, uintType, List.append_assoc] using h
  | vuint16 n =>
      have h := decodeField_parts 9 (strBytes key) (uvarintBytes n) r
        (readPayload_tag9 n r)
      simpa [encField, opsBytes, opBytes, addTraceBufEntry, tbTag, payloadBytes,
        payloadOps, uintType, List.append_assoc] using h
  | vuint32 n =>
      have h := decodeField_parts 9 (strBytes key) (uvarintBytes n) r
        (readPayload_tag9 n r)
      simpa [encField, opsBytes, opBytes, addTraceBufEntry, tbTag, payloadBytes,
        payloadOps, uintType, List.append_assoc] using h
  | vuint64 n =>
      have h := decodeField_parts 9 (strBytes key) (uvarintBytes n) r
        (readPayload_tag9 n r)
      simpa [encField, opsBytes, opBytes, addTraceBufEntry, tbTag, payloadBytes,
        payloadOps, uintType, List.append_assoc] using h
  | vuint n =>
      have h := decodeField_parts 9 (strBytes key) (uvarintBytes n) r
        (readPayload_tag9 n r)
      simpa [encField, opsBytes, opBytes, addTraceBufEntry, tbTag, payloadBytes,
        payloadOps, uintType, List.append_assoc] using h
  | vfloat32 b =>
      have hp : readPayload 10 (leBytes 4 b ++ r) = some (leBytes 4 b, r) := by
        simp only [readPayload]
        exact readN_of_length _ r (leBytes_length 4 b)
      have h := decodeField_parts 10 (strBytes key) (leBytes 4 b) r hp
      simpa [encField, opsBytes, opBytes, addTraceBufEntry, tbTag, payloadBytes,
        payloadOps, float32Type, List.append_assoc] using h
  | vfloat64 b =>
      have hp : readPayload 11 (leBytes 8 b ++ r) = some (leBytes 8 b, r) := by
        simp only [readPayload]
        exact readN_of_length _ r (leBytes_length 8 b)
      have h := decodeField_parts 11 (strBytes key) (leBytes 8 b) r hp
      simpa [encField, opsBytes, opBytes, addTraceBufEntry, tbTag, payloadBytes,
        payloadOps, float64Type, List.append_assoc] using h

/-- C9: the trace-buffer field encoding is decodable: encoding any
list of fields with the `[tag:1][key:string][payload]` layout and then
decoding with the independent §4.3 decoder recovers each field's key
bytes, tag, and payload bytes exactly, consuming the input fully. -/
theorem claim9_roundtrip (fs : List (String × Val)) :
    decodeFields fs.length (encFields fs) = some (fs.map fieldView) := by
  induction fs with
  | nil => rfl
  | cons f rest ih =>
      obtain ⟨key, v⟩ := f
      simp only [encFields, List.map_cons, List.flatten_cons, List.length_cons,
        decodeFields]
      rw [show (rest.map (fun p => encField p.1 p.2)).flatten = encFields rest from rfl]
      simp only [decodeField_enc key v (encFields rest), ih]
      rfl

end Rlog
